import Mathlib

/-!
# Verification of the hgraph time-series core

A shallow embedding of the parts of the hgraph runtime that the checked
claims speak about:

* `src/src/hgraph/_impl/_types/_buff.py` — the integer-sized ring-buffer
  output (`PythonTimeSeriesIBufferValueOutput`) and the duration-sized
  deque output (`PythonTimeSeriesTBufferValueOutput`);
* `src/hg/_impl/_types/_input.py` — `PythonBoundTimeSeriesInput`
  (active/passive state, binding, `modified`, `valid`, `all_valid`,
  `last_modified_time`);
* `src/src/hgraph/_wiring/_wiring_node_class/_operator_wiring_node.py` —
  `OverloadedWiringNodeHelper.get_best_overload`.

Engine timestamps are modelled as naturals; the `MIN_DT`/`MIN_TD`
sentinel is `0`, and genuine engine times are strictly positive (a real
`datetime` never equals the sentinel).
-/

/-- The `MIN_DT` / `MIN_TD` sentinel (smallest representable timestamp). -/
def MIN_DT : Nat := 0

/-! ## Integer-sized buffer output: `PythonTimeSeriesIBufferValueOutput`

`_value` is a numpy array of capacity `_size`; uninitialised slots are
modelled as `none`.  `_times` is an array of the same capacity filled
with the `MIN_TD` sentinel.  `_start`/`_length` describe the ring
window. -/

structure PythonTimeSeriesIBufferValueOutput (α : Type) where
  size : Nat
  min_size : Nat
  buf : List (Option α)
  times : List Nat
  start : Nat
  length : Nat
deriving Repr, DecidableEq

namespace PythonTimeSeriesIBufferValueOutput

variable {α : Type}

/-- Modelled from the spec: the output builder that constructs the buffer
output is not under `src/`; the spec describes a ring buffer of capacity
`size` that starts out empty, so the initial window is `start = 0`,
`length = 0`, with value slots uninitialised and times filled with the
sentinel (`__post_init__` fills `_times` with `MIN_TD`). -/
def init (α : Type) (size min_size : Nat) : PythonTimeSeriesIBufferValueOutput α :=
  { size := size, min_size := min_size
    buf := List.replicate size none
    times := List.replicate size MIN_DT
    start := 0, length := 0 }

/-- `np.roll(a, -start)`: rotate left by `start` (shift taken mod length). -/
def rollLeft (n : Nat) (l : List α) : List α :=
  l.drop (n % l.length) ++ l.take (n % l.length)

/-- `_roll`: if `_start != 0`, rotate `_value` and `_times` left by
`_start` and reset `_start` to `0`. -/
def roll (b : PythonTimeSeriesIBufferValueOutput α) : PythonTimeSeriesIBufferValueOutput α :=
  if b.start ≠ 0 then
    { b with buf := rollLeft b.start b.buf, times := rollLeft b.start b.times, start := 0 }
  else b

/-- The `value` property getter.  The source reads

```
if self._min_size < length: return None
self._roll()
if length != capacity: return self._value[:length]
else: return self._value
```

The getter mutates the receiver through `_roll`, so the model returns
the read result together with the state after the read. -/
def valueRead (b : PythonTimeSeriesIBufferValueOutput α) :
    Option (List (Option α)) × PythonTimeSeriesIBufferValueOutput α :=
  if b.min_size < b.length then (none, b)
  else
    let rb := b.roll
    (if b.length ≠ b.size then some (rb.buf.take b.length) else some rb.buf, rb)

/-- `value_times` getter: returns `self._times` as held (no roll). -/
def value_times (b : PythonTimeSeriesIBufferValueOutput α) : List Nat :=
  b.times

/-- `apply_result`: `None` results are ignored; otherwise one sample is
written at the ring position `(start + length - 1) % capacity` after
growing the window (advancing `start` when the capacity is exceeded),
stamped with the evaluation time `now`. -/
def apply_result (b : PythonTimeSeriesIBufferValueOutput α) (now : Nat)
    (result : Option α) : PythonTimeSeriesIBufferValueOutput α :=
  match result with
  | none => b
  | some v =>
    let start0 := b.start
    let length0 := b.length + 1
    let start := if length0 > b.size then (start0 + 1) % b.size else start0
    let length := if length0 > b.size then b.size else length0
    let pos := (start + length - 1) % b.size
    { b with buf := b.buf.set pos (some v), times := b.times.set pos now
             start := start, length := length }

/-- The descending scan of `delta_value`'s `for i in range(size-2, -1, -1)`
loop: `deltaAux b now (i+1)` examines index `i`, skipping sentinel
slots, and falls off the loop with `None`. -/
def deltaAux (b : PythonTimeSeriesIBufferValueOutput α) (now : Nat) : Nat → Option α
  | 0 => none
  | i + 1 =>
    let tm := b.times.getD i MIN_DT
    if tm = MIN_DT then deltaAux b now i
    else if tm = now then b.buf.getD i none
    else none

/-- `delta_value` getter: look at `_times[-1]`; if it equals the current
evaluation time return `_value[-1]`; if it is the sentinel, scan down
from `size - 2` for the newest filled slot; otherwise `None`. -/
def delta_value (b : PythonTimeSeriesIBufferValueOutput α) (now : Nat) : Option α :=
  let tm := b.times.getD (b.size - 1) MIN_DT
  if tm = now then b.buf.getD (b.size - 1) none
  else if tm = MIN_DT then deltaAux b now (b.size - 1)
  else none

end PythonTimeSeriesIBufferValueOutput

/-- Run a sequence of `apply_result` writes `(time, value)` against an
integer-sized buffer output; values are non-`None` scalars. -/
def runIB {α : Type} (b : PythonTimeSeriesIBufferValueOutput α)
    (ws : List (Nat × α)) : PythonTimeSeriesIBufferValueOutput α :=
  ws.foldl (fun b p => b.apply_result p.1 (some p.2)) b

/-! ## Duration-sized buffer output: `PythonTimeSeriesTBufferValueOutput`

Two parallel deques `_value` and `_times` (oldest first); `_size` and
`_min_size` are durations, modelled as naturals. -/

structure PythonTimeSeriesTBufferValueOutput (α : Type) where
  size : Nat
  min_size : Nat
  buf : List α
  times : List Nat
deriving Repr, DecidableEq

namespace PythonTimeSeriesTBufferValueOutput

variable {α : Type}

/-- Freshly built duration buffer: both deques empty (the dataclass field
defaults in the source). -/
def init (α : Type) (size min_size : Nat) : PythonTimeSeriesTBufferValueOutput α :=
  { size := size, min_size := min_size, buf := [], times := [] }

/-- `_roll`: evict entries strictly older than `now - size` from the
front of both deques. -/
def roll (b : PythonTimeSeriesTBufferValueOutput α) (now : Nat) :
    PythonTimeSeriesTBufferValueOutput α :=
  let tm := now - b.size
  let n := (b.times.takeWhile (fun t => decide (t < tm))).length
  { b with buf := b.buf.drop n, times := b.times.drop n }

/-- `value` getter: rolls, then returns the value deque (with the
post-read state, since the getter mutates). -/
def valueRead (b : PythonTimeSeriesTBufferValueOutput α) (now : Nat) :
    List α × PythonTimeSeriesTBufferValueOutput α :=
  let rb := b.roll now
  (rb.buf, rb)

/-- `value_times` getter: rolls, then returns the times deque. -/
def valueTimesRead (b : PythonTimeSeriesTBufferValueOutput α) (now : Nat) :
    List Nat × PythonTimeSeriesTBufferValueOutput α :=
  let rb := b.roll now
  (rb.times, rb)

/-- `delta_value` getter: the last entry when it was stamped at the
current evaluation time, else `None`.  No roll. -/
def delta_value (b : PythonTimeSeriesTBufferValueOutput α) (now : Nat) : Option α :=
  match b.times.getLast? with
  | some tm => if tm = now then b.buf.getLast? else none
  | none => none

/-- `first_modified_time` getter: `self._times[0] if self._times else
MIN_TD`.  Note: no roll happens here. -/
def first_modified_time (b : PythonTimeSeriesTBufferValueOutput α) : Nat :=
  b.times.headD MIN_DT

/-- `apply_result`: `None` is ignored; otherwise append the value and the
current evaluation time to the deques. -/
def apply_result (b : PythonTimeSeriesTBufferValueOutput α) (now : Nat)
    (result : Option α) : PythonTimeSeriesTBufferValueOutput α :=
  match result with
  | none => b
  | some v => { b with buf := b.buf ++ [v], times := b.times ++ [now] }

end PythonTimeSeriesTBufferValueOutput

/-- Run a sequence of `apply_result` writes `(time, value)` against a
duration-sized buffer output. -/
def runTB {α : Type} (b : PythonTimeSeriesTBufferValueOutput α)
    (ws : List (Nat × α)) : PythonTimeSeriesTBufferValueOutput α :=
  ws.foldl (fun b p => b.apply_result p.1 (some p.2)) b

/-- The claim's notion of the oldest *live* entry of a duration window: the
earliest stored timestamp that is not older than `now - size` (times are
stored in ascending order, so it is the head of the filtered list). -/
def oldestLiveTime {α : Type} (b : PythonTimeSeriesTBufferValueOutput α)
    (now : Nat) : Option Nat :=
  (b.times.filter (fun t => decide (now - b.size ≤ t))).head?

/-! ## State of a buffer after a sequence of writes -/

/-- Times accumulated by a run of duration-buffer writes: `apply_result`
appends each write's engine time. -/
theorem runTB_times {α : Type} (b : PythonTimeSeriesTBufferValueOutput α)
    (ws : List (Nat × α)) : (runTB b ws).times = b.times ++ ws.map Prod.fst := by
  induction ws generalizing b with
  | nil => simp [runTB]
  | cons p l ih =>
    have : runTB b (p :: l) = runTB (b.apply_result p.1 (some p.2)) l := rfl
    rw [this, ih]
    simp [PythonTimeSeriesTBufferValueOutput.apply_result]

/-- Values accumulated by a run of duration-buffer writes. -/
theorem runTB_buf {α : Type} (b : PythonTimeSeriesTBufferValueOutput α)
    (ws : List (Nat × α)) : (runTB b ws).buf = b.buf ++ ws.map Prod.snd := by
  induction ws generalizing b with
  | nil => simp [runTB]
  | cons p l ih =>
    have : runTB b (p :: l) = runTB (b.apply_result p.1 (some p.2)) l := rfl
    rw [this, ih]
    simp [PythonTimeSeriesTBufferValueOutput.apply_result]

/-- Other fields of the duration buffer are untouched by writes. -/
theorem runTB_size {α : Type} (b : PythonTimeSeriesTBufferValueOutput α)
    (ws : List (Nat × α)) : (runTB b ws).size = b.size ∧ (runTB b ws).min_size = b.min_size := by
  induction ws generalizing b with
  | nil => exact ⟨rfl, rfl⟩
  | cons p l ih =>
    have : runTB b (p :: l) = runTB (b.apply_result p.1 (some p.2)) l := rfl
    rw [this]
    exact ih _

/-- The exact state of an integer-sized buffer after at most `size`
writes from the empty window: values fill from slot `0` in write order,
the remaining slots stay uninitialised, the window starts at `0` and the
stored length is the number of writes. -/
theorem runIB_init_spec {α : Type} (size m : Nat) (ws : List (Nat × α))
    (h : ws.length ≤ size) :
    runIB (PythonTimeSeriesIBufferValueOutput.init α size m) ws =
      { size := size, min_size := m
        buf := ws.map (fun p => some p.2) ++ List.replicate (size - ws.length) none
        times := ws.map Prod.fst ++ List.replicate (size - ws.length) MIN_DT
        start := 0, length := ws.length } := by
  induction ws using List.reverseRecOn with
  | nil => simp [runIB, PythonTimeSeriesIBufferValueOutput.init]
  | append_singleton l p ih =>
    have hl : l.length < size := by
      have := h; simpa using this
    have hrun : runIB (PythonTimeSeriesIBufferValueOutput.init α size m) (l ++ [p]) =
        (runIB (PythonTimeSeriesIBufferValueOutput.init α size m) l).apply_result p.1 (some p.2) := by
      simp [runIB, List.foldl_append]
    rw [hrun, ih (Nat.le_of_lt hl)]
    have hnot : ¬ (l.length + 1 > size) := by omega
    have hpos : (0 + (l.length + 1) - 1) % size = l.length := by
      have : 0 + (l.length + 1) - 1 = l.length := by omega
      rw [this, Nat.mod_eq_of_lt hl]
    have hrep : size - l.length = (size - (l.length + 1)) + 1 := by omega
    have hbuf :
        ((l.map (fun q => some q.2) ++ List.replicate (size - l.length) (none : Option α)).set
          l.length (some p.2))
          = (l ++ [p]).map (fun q => some q.2) ++ List.replicate (size - (l.length + 1)) none := by
      rw [hrep, List.replicate_succ, List.set_append]
      simp
    have htimes :
        ((l.map Prod.fst ++ List.replicate (size - l.length) MIN_DT).set l.length p.1)
          = (l ++ [p]).map Prod.fst ++ List.replicate (size - (l.length + 1)) MIN_DT := by
      rw [hrep, List.replicate_succ, List.set_append]
      simp
    have hmod : l.length % size = l.length := Nat.mod_eq_of_lt hl
    simp [PythonTimeSeriesIBufferValueOutput.apply_result, hnot, hmod]
    constructor
    · simpa using hbuf
    · simpa using htimes

/-- A scan over slots that all hold the `MIN_TD` sentinel falls off the
loop and yields `None`. -/
theorem deltaAux_sentinel {α : Type} (b : PythonTimeSeriesIBufferValueOutput α)
    (now : Nat) (j : Nat) (hj : ∀ i, i < j → b.times.getD i MIN_DT = MIN_DT) :
    b.deltaAux now j = none := by
  induction j with
  | zero => rfl
  | succ i ih =>
    have hs : b.times.getD i MIN_DT = MIN_DT := hj i (Nat.lt_succ_self i)
    simp only [PythonTimeSeriesIBufferValueOutput.deltaAux, hs, if_pos rfl]
    exact ih fun i' hi' => hj i' (Nat.lt_succ_of_lt hi')

/-- Scanning down over sentinel slots above index `k` reduces to the scan
from `k`. -/
theorem deltaAux_skip {α : Type} (b : PythonTimeSeriesIBufferValueOutput α)
    (now : Nat) (k : Nat) (hk : ∀ i, k ≤ i → b.times.getD i MIN_DT = MIN_DT) :
    ∀ j, k ≤ j → b.deltaAux now j = b.deltaAux now k := by
  intro j
  induction j with
  | zero => intro h; rw [Nat.le_zero.mp h]
  | succ i ih =>
    intro h
    rcases Nat.lt_or_ge k (i + 1) with h1 | h2
    · have hki : k ≤ i := Nat.lt_succ_iff.mp h1
      have hs : b.times.getD i MIN_DT = MIN_DT := hk i hki
      simp only [PythonTimeSeriesIBufferValueOutput.deltaAux, hs, if_pos rfl]
      exact ih hki
    · rw [Nat.le_antisymm h h2]

/-- C1: scenario S4 evaluated against the source of
`PythonTimeSeriesIBufferValueOutput.value`.  With size 3, min_size 2 and
writes 10@1, 20@2, 30@3, 40@4, the guard `if self._min_size < length:
return None` is inverted relative to the spec (`value` defined once
`length ≥ min_size`): the code yields `[10]` at t=1 (spec: none) and
`None` at t=4 (spec: `[20,30,40]`); only t=2 agrees (`[10,20]`). -/
theorem ibuff_value_guard_inverted :
    (runIB (PythonTimeSeriesIBufferValueOutput.init Nat 3 2)
        [(1, 10)]).valueRead.1 = some [some 10]
    ∧ (runIB (PythonTimeSeriesIBufferValueOutput.init Nat 3 2)
        [(1, 10), (2, 20)]).valueRead.1 = some [some 10, some 20]
    ∧ (runIB (PythonTimeSeriesIBufferValueOutput.init Nat 3 2)
        [(1, 10), (2, 20), (3, 30), (4, 40)]).valueRead.1 = none := by
  decide

/-- C2: the BUFF round-trip fails on the source.  With size 3, min_size 2
and the four writes 10@1, 20@2, 30@3, 40@4 (N = 4 > size), each
`apply_result` call did append exactly one sample stamped with its
engine time (the ring holds the last three samples 40@4, 20@2, 30@3 and
`length = 3`), but reading `value` back gives `None` instead of the
window `[20,30,40]`, because of the inverted `min_size` guard. -/
theorem ibuff_round_trip_fails :
    (runIB (PythonTimeSeriesIBufferValueOutput.init Nat 3 2)
        [(1, 10), (2, 20), (3, 30), (4, 40)]).length = 3
    ∧ (runIB (PythonTimeSeriesIBufferValueOutput.init Nat 3 2)
        [(1, 10), (2, 20), (3, 30), (4, 40)]).buf = [some 40, some 20, some 30]
    ∧ (runIB (PythonTimeSeriesIBufferValueOutput.init Nat 3 2)
        [(1, 10), (2, 20), (3, 30), (4, 40)]).times = [4, 2, 3]
    ∧ (runIB (PythonTimeSeriesIBufferValueOutput.init Nat 3 2)
        [(1, 10), (2, 20), (3, 30), (4, 40)]).valueRead.1 = none := by
  decide

/-- `getD` of a replicated list with the replicated element as default. -/
theorem getD_replicate_self {α : Type} (n i : Nat) (d : α) :
    (List.replicate n d).getD i d = d := by
  rcases Nat.lt_or_ge i n with h | h
  · rw [List.getD_eq_getElem?_getD, List.getElem?_replicate, if_pos h]; rfl
  · rw [List.getD_eq_getElem?_getD, List.getElem?_replicate, if_neg (Nat.not_lt.mpr h)]; rfl

/-- C7 counterexample: the claim fails on the source for a duration-sized
buffer.  With duration size 5 and writes 10@1 and 20@100, at engine time
100 the only live entry is the one stamped 100 (the entry stamped 1 is
older than `now - size = 95`), yet `first_modified_time` — which never
rolls — still returns 1. -/
theorem tbuff_first_modified_time_stale_cex :
    let b := runTB (PythonTimeSeriesTBufferValueOutput.init Nat 5 1) [(1, 10), (100, 20)]
    b.first_modified_time = 1 ∧ oldestLiveTime b 100 = some 100 ∧
    b.first_modified_time ≠ 100 := by
  decide

/-- C7 amended: for every duration-sized buffer state reachable by
`apply_result` writes, `first_modified_time` is the timestamp of the
oldest *stored* entry (the sentinel when empty); entries older than
`now - size` are evicted only lazily by `value`/`value_times`/`len`
reads, so the result may predate the live window. -/
theorem tbuff_first_modified_time_oldest_stored {α : Type} (size m : Nat)
    (ws : List (Nat × α)) :
    (runTB (PythonTimeSeriesTBufferValueOutput.init α size m) ws).first_modified_time
      = (ws.map Prod.fst).headD MIN_DT := by
  simp [PythonTimeSeriesTBufferValueOutput.first_modified_time, runTB_times,
    PythonTimeSeriesTBufferValueOutput.init]

/-- C9 counterexample: after a wrap the newest sample can sit away from
the last physical slot, and `delta_value` then misses it.  Size 2 with
writes 10@1, 20@2, 30@3: the sample 30 is stored at the write position
with timestamp 3 = now, yet `delta_value` returns `None`. -/
theorem ibuff_delta_value_wrap_cex :
    let b := runIB (PythonTimeSeriesIBufferValueOutput.init Nat 2 1) [(1, 10), (2, 20), (3, 30)]
    b.delta_value 3 = none ∧
    b.times.getD ((b.start + b.length - 1) % b.size) MIN_DT = 3 ∧
    b.buf.getD ((b.start + b.length - 1) % b.size) none = some 30 := by
  decide

/-- C9 amended: `delta_value` returns the most recently appended sample
iff it was appended at the current evaluation time — for the
duration-sized buffer unconditionally, and for the integer-sized buffer
for windows that have not wrapped (at most `size` samples appended since
the buffer was last empty); unfilled slots are skipped.  After a wrap
this equivalence can fail (see the counterexample).  Engine times are
strictly positive (a real `datetime` never equals the sentinel). -/
theorem buffer_delta_value_amended {α : Type} (size m : Nat) (ws : List (Nat × α))
    (now : Nat) (hlen : ws.length ≤ size) (hpos : ∀ p ∈ ws, 0 < p.1) (hnow : 0 < now) :
    ((runIB (PythonTimeSeriesIBufferValueOutput.init α size m) ws).delta_value now
      = match ws.getLast? with
        | some p => if p.1 = now then some p.2 else none
        | none => none)
    ∧ (∀ (tsize tmin : Nat) (wsT : List (Nat × α)),
        (runTB (PythonTimeSeriesTBufferValueOutput.init α tsize tmin) wsT).delta_value now
          = match wsT.getLast? with
            | some p => if p.1 = now then some p.2 else none
            | none => none) := by
  constructor
  · induction ws using List.reverseRecOn with
    | nil =>
      have hrun : runIB (PythonTimeSeriesIBufferValueOutput.init α size m) [] =
          PythonTimeSeriesIBufferValueOutput.init α size m := rfl
      rw [hrun]
      simp only [List.getLast?_nil]
      simp only [PythonTimeSeriesIBufferValueOutput.delta_value,
        PythonTimeSeriesIBufferValueOutput.init]
      rw [getD_replicate_self]
      have hne : ¬ MIN_DT = now := by simp only [MIN_DT]; omega
      rw [if_neg hne, if_pos rfl]
      exact deltaAux_sentinel _ now _ fun i _ => getD_replicate_self size i MIN_DT
    | append_singleton l p _ =>
      have hlen' : l.length + 1 ≤ size := by simpa using hlen
      have hst := runIB_init_spec size m (l ++ [p]) hlen
      have hp : 0 < p.1 := hpos p (by simp)
      have hSize : (runIB (PythonTimeSeriesIBufferValueOutput.init α size m) (l ++ [p])).size
          = size := by rw [hst]
      have hTimes : (runIB (PythonTimeSeriesIBufferValueOutput.init α size m) (l ++ [p])).times
          = (l.map Prod.fst ++ [p.1]) ++ List.replicate (size - (l.length + 1)) MIN_DT := by
        rw [hst]; simp
      have hBuf : (runIB (PythonTimeSeriesIBufferValueOutput.init α size m) (l ++ [p])).buf
          = (l.map (fun q => some q.2) ++ [some p.2])
            ++ List.replicate (size - (l.length + 1)) (none : Option α) := by
        rw [hst]; simp
      have hT1 : (runIB (PythonTimeSeriesIBufferValueOutput.init α size m) (l ++ [p])).times.getD
          l.length MIN_DT = p.1 := by
        rw [hTimes, List.append_assoc, List.getD_append_right _ _ _ _ (by simp)]
        simp
      have hB1 : (runIB (PythonTimeSeriesIBufferValueOutput.init α size m) (l ++ [p])).buf.getD
          l.length none = some p.2 := by
        rw [hBuf, List.append_assoc, List.getD_append_right _ _ _ _ (by simp)]
        simp
      have hT2 : ∀ i, l.length + 1 ≤ i →
          (runIB (PythonTimeSeriesIBufferValueOutput.init α size m) (l ++ [p])).times.getD
            i MIN_DT = MIN_DT := by
        intro i hi
        rw [hTimes, List.getD_append_right _ _ _ _ (by simp; omega)]
        exact getD_replicate_self _ _ _
      rw [List.getLast?_concat]
      simp only [PythonTimeSeriesIBufferValueOutput.delta_value, hSize]
      have hne : ¬ MIN_DT = now := by simp only [MIN_DT]; omega
      have hnep : ¬ p.1 = MIN_DT := by simp only [MIN_DT]; omega
      rcases Nat.lt_or_ge (l.length + 1) size with hlt | hge
      · have h1 : l.length + 1 ≤ size - 1 := by omega
        rw [hT2 _ h1, if_neg hne, if_pos rfl]
        rw [deltaAux_skip _ now (l.length + 1) hT2 (size - 1) h1]
        simp only [PythonTimeSeriesIBufferValueOutput.deltaAux]
        rw [hT1, if_neg hnep, hB1]
      · have hsub : size - 1 = l.length := by omega
        rw [hsub, hT1, hB1, if_neg hnep]
  · intro tsize tmin wsT
    have ht : (runTB (PythonTimeSeriesTBufferValueOutput.init α tsize tmin) wsT).times
        = wsT.map Prod.fst := by
      rw [runTB_times]; rfl
    have hb : (runTB (PythonTimeSeriesTBufferValueOutput.init α tsize tmin) wsT).buf
        = wsT.map Prod.snd := by
      rw [runTB_buf]; rfl
    simp only [PythonTimeSeriesTBufferValueOutput.delta_value, ht, hb, List.getLast?_map]
    cases hw : wsT.getLast? with
    | none => rfl
    | some p => simp

/-- Witness instantiating `buffer_delta_value_amended`: two writes 10@1,
20@2 into a size-3 buffer read at now = 2 deliver `delta_value = 20`; the
same two writes into a duration buffer read at now = 3 deliver `None`. -/
theorem buffer_delta_value_amended_witness :
    (runIB (PythonTimeSeriesIBufferValueOutput.init Nat 3 2) [(1, 10), (2, 20)]).delta_value 2
      = some 20
    ∧ (runTB (PythonTimeSeriesTBufferValueOutput.init Nat 5 1) [(1, 10), (2, 20)]).delta_value 3
      = none := by
  constructor
  · have h := (buffer_delta_value_amended (α := Nat) 3 2 [(1, 10), (2, 20)] 2
      (by decide) (by decide) (by decide)).1
    simpa using h
  · have h := (buffer_delta_value_amended (α := Nat) 3 2 [(1, 10), (2, 20)] 3
      (by decide) (by decide) (by decide)).2 5 1 [(1, 10), (2, 20)]
    simpa using h

/-! ## Time-series outputs and bound inputs

`PythonBoundTimeSeriesInput` is translated from
`src/hg/_impl/_types/_input.py`.  The output side it talks to
(`PythonTimeSeriesOutput`, file `_output.py`) is not under `src/`, so its
state is modelled from the spec. -/

/-- Modelled from the spec: `PythonTimeSeriesOutput` (`_output.py` is not
under `src/`).  The spec gives the output fields `valid`, `all_valid`,
`last_modified_time`, `modified ⇔ last_modified_time == engine.now`, and
an ordered subscriber set of nodes, "each node listed at most once",
maintained by `subscribe_node` / `un_subscribe_node`. -/
structure PythonTimeSeriesOutput where
  valid : Bool
  all_valid : Bool
  last_modified_time : Nat
  subscribers : List Nat
deriving Repr, DecidableEq

namespace PythonTimeSeriesOutput

/-- Modelled from the spec: `modified` is "true iff
`last_modified_time == engine.now`". -/
def modified (o : PythonTimeSeriesOutput) (now : Nat) : Bool :=
  o.last_modified_time == now

/-- Modelled from the spec: `subscribe_node` inserts the node into the
ordered subscriber set (at most one listing per node). -/
def subscribe_node (o : PythonTimeSeriesOutput) (n : Nat) : PythonTimeSeriesOutput :=
  if n ∈ o.subscribers then o else { o with subscribers := o.subscribers ++ [n] }

/-- Modelled from the spec: `un_subscribe_node` removes the node from the
subscriber set. -/
def un_subscribe_node (o : PythonTimeSeriesOutput) (n : Nat) : PythonTimeSeriesOutput :=
  { o with subscribers := o.subscribers.erase n }

end PythonTimeSeriesOutput

/-- The state of `PythonBoundTimeSeriesInput`: `_output` is an index into
the world's output store (`None` when unbound), plus `_active` and
`_sample_time` (initialised to `MIN_DT`). -/
structure PythonBoundTimeSeriesInput where
  owning_node : Nat
  output : Option Nat
  active : Bool
  sample_time : Nat
deriving Repr, DecidableEq

/-- A world holding one bound input, the output store it binds into, and
the owning node's observable state.  `sub_calls` / `unsub_calls` count
the invocations of `subscribe_node` / `un_subscribe_node`, and
`notify_count` the invocations of `owning_node.notify()`. -/
structure EngineWorld where
  outputs : List PythonTimeSeriesOutput
  input : PythonBoundTimeSeriesInput
  node_started : Bool
  notify_count : Nat
  sub_calls : Nat
  unsub_calls : Nat
  now : Nat
deriving Repr, DecidableEq

namespace EngineWorld

/-- Look up an output by index (a default, never-valid output out of
range; in-range accesses are the modelled ones). -/
def getOut (w : EngineWorld) (i : Nat) : PythonTimeSeriesOutput :=
  w.outputs.getD i ⟨false, false, MIN_DT, []⟩

/-- Apply `f` to the output at index `i`. -/
def modifyOut (w : EngineWorld) (i : Nat)
    (f : PythonTimeSeriesOutput → PythonTimeSeriesOutput) : EngineWorld :=
  { w with outputs := w.outputs.set i (f (w.getOut i)) }

/-- `make_active`: `if not self._active: self._active = True; if
self.bound: self._output.subscribe_node(self.owning_node)`. -/
def make_active (w : EngineWorld) : EngineWorld :=
  if w.input.active then w
  else
    let w1 := { w with input := { w.input with active := true } }
    match w1.input.output with
    | some i =>
      { w1.modifyOut i (fun o => o.subscribe_node w1.input.owning_node) with
        sub_calls := w1.sub_calls + 1 }
    | none => w1

/-- `make_passive`: `if self._active: self._active = False; if
self.bound: self._output.un_subscribe_node(self.owning_node)`. -/
def make_passive (w : EngineWorld) : EngineWorld :=
  if w.input.active then
    let w1 := { w with input := { w.input with active := false } }
    match w1.input.output with
    | some i =>
      { w1.modifyOut i (fun o => o.un_subscribe_node w1.input.owning_node) with
        unsub_calls := w1.unsub_calls + 1 }
    | none => w1
  else w

/-- `do_bind_output`: remember the active flag, go passive (unsubscribing
from the old output), install the new output, and re-activate
(subscribing to the new output) when the input was active. -/
def do_bind_output (w : EngineWorld) (i : Nat) : EngineWorld :=
  let active := w.input.active
  let w1 := w.make_passive
  let w2 := { w1 with input := { w1.input with output := some i } }
  if active then w2.make_active else w2

/-- `self.owning_node.notify()`. -/
def notify (w : EngineWorld) : EngineWorld :=
  { w with notify_count := w.notify_count + 1 }

/-- `bind_output` for a plain (non-reference) output: `peer =
self.do_bind_output(value)`, then `if self.owning_node.is_started and
self._output and self._output.valid: self._sample_time = ...now; if
self.active: self.owning_node.notify()`. -/
def bind_output (w : EngineWorld) (i : Nat) : EngineWorld :=
  let w1 := w.do_bind_output i
  if w1.node_started &&
      (match w1.input.output with
       | some j => (w1.getOut j).valid
       | none => false) then
    let w2 := { w1 with input := { w1.input with sample_time := w1.now } }
    if w2.input.active then w2.notify else w2
  else w1

/-- `bound` property: `self._output is not None`. -/
def bound (w : EngineWorld) : Bool := w.input.output.isSome

/-- `modified` property: `self._output is not None and
self._output.modified or (self._sample_time != MIN_DT and
self._sample_time == ...current_engine_time)`. -/
def modified (w : EngineWorld) : Bool :=
  (match w.input.output with
   | some i => (w.getOut i).modified w.now
   | none => false)
  || (decide (w.input.sample_time ≠ MIN_DT) && (w.input.sample_time == w.now))

/-- `valid` property: `self.bound and self._output.valid`. -/
def valid (w : EngineWorld) : Bool :=
  w.bound &&
    (match w.input.output with
     | some i => (w.getOut i).valid
     | none => false)

/-- `all_valid` property: `self.bound and self._output.all_valid`. -/
def all_valid (w : EngineWorld) : Bool :=
  w.bound &&
    (match w.input.output with
     | some i => (w.getOut i).all_valid
     | none => false)

/-- `last_modified_time` property: `max(self._output.last_modified_time,
self._sample_time) if self.bound else MIN_DT`. -/
def last_modified_time (w : EngineWorld) : Nat :=
  match w.input.output with
  | some i => max (w.getOut i).last_modified_time w.input.sample_time
  | none => MIN_DT

end EngineWorld

/-- C4: the input's `modified` property holds iff the bound output was
modified at the current tick (its `last_modified_time` equals the engine
time) or a direct sample was delivered at this tick (`sample_time` is
not the `MIN_DT` sentinel and equals the engine time). -/
theorem input_modified_iff (w : EngineWorld) :
    w.modified = true ↔
      ((∃ i, w.input.output = some i ∧ (w.getOut i).last_modified_time = w.now)
        ∨ (w.input.sample_time ≠ MIN_DT ∧ w.input.sample_time = w.now)) := by
  unfold EngineWorld.modified PythonTimeSeriesOutput.modified
  cases ho : w.input.output with
  | none => simp [ho]
  | some i => simp [ho]

/-- C10: an unbound input reports `bound = false`, `valid = false`,
`all_valid = false` and `last_modified_time = MIN_DT`, regardless of its
active flag, its sample time, and the engine time. -/
theorem unbound_input_defaults (w : EngineWorld) (h : w.input.output = none) :
    w.bound = false ∧ w.valid = false ∧ w.all_valid = false ∧
    w.last_modified_time = MIN_DT := by
  unfold EngineWorld.bound EngineWorld.valid EngineWorld.all_valid
    EngineWorld.last_modified_time
  rw [h]
  simp

/-- Witness for `unbound_input_defaults`: an unbound input that is active,
has a stale direct sample, at a nonzero engine time. -/
theorem unbound_input_defaults_witness :
    (⟨[⟨true, true, 7, [3]⟩], ⟨3, none, true, 7⟩, true, 0, 0, 0, 7⟩ : EngineWorld).valid
        = false
    ∧ (⟨[⟨true, true, 7, [3]⟩], ⟨3, none, true, 7⟩, true, 0, 0, 0, 7⟩ : EngineWorld).last_modified_time
        = MIN_DT := by
  have h := unbound_input_defaults
    ⟨[⟨true, true, 7, [3]⟩], ⟨3, none, true, 7⟩, true, 0, 0, 0, 7⟩ rfl
  exact ⟨h.2.1, h.2.2.2⟩

namespace EngineWorld

/-- Reading an output after modifying the one at index `i`. -/
theorem getOut_modifyOut (w : EngineWorld) (i j : Nat)
    (f : PythonTimeSeriesOutput → PythonTimeSeriesOutput) :
    (w.modifyOut i f).getOut j =
      if i = j ∧ i < w.outputs.length then f (w.getOut i) else w.getOut j := by
  unfold EngineWorld.modifyOut EngineWorld.getOut
  rw [List.getD_eq_getElem?_getD, List.getD_eq_getElem?_getD, List.getElem?_set]
  by_cases hij : i = j
  · subst hij
    by_cases hi : i < w.outputs.length
    · simp [hi]
    · have hn : w.outputs[i]? = none := List.getElem?_eq_none (Nat.le_of_not_lt hi)
      simp [hi, hn]
  · simp [hij]

/-- `make_passive` leaves the input passive. -/
theorem make_passive_active (w : EngineWorld) : w.make_passive.input.active = false := by
  unfold EngineWorld.make_passive
  by_cases hact : w.input.active = true
  · rw [if_pos hact]
    cases ho : w.input.output <;> simp [ho, EngineWorld.modifyOut]
  · rw [if_neg hact]
    revert hact; cases w.input.active <;> simp

/-- `make_passive` does not rebind the input. -/
theorem make_passive_output (w : EngineWorld) :
    w.make_passive.input.output = w.input.output := by
  unfold EngineWorld.make_passive
  by_cases hact : w.input.active = true
  · rw [if_pos hact]
    cases ho : w.input.output <;> simp [ho, EngineWorld.modifyOut]
  · rw [if_neg hact]

/-- `make_passive` does not change the owning node. -/
theorem make_passive_owning (w : EngineWorld) :
    w.make_passive.input.owning_node = w.input.owning_node := by
  unfold EngineWorld.make_passive
  by_cases hact : w.input.active = true
  · rw [if_pos hact]
    cases ho : w.input.output <;> simp [ho, EngineWorld.modifyOut]
  · rw [if_neg hact]

/-- `make_passive` does not touch the direct-sample time. -/
theorem make_passive_sample (w : EngineWorld) :
    w.make_passive.input.sample_time = w.input.sample_time := by
  unfold EngineWorld.make_passive
  by_cases hact : w.input.active = true
  · rw [if_pos hact]
    cases ho : w.input.output <;> simp [ho, EngineWorld.modifyOut]
  · rw [if_neg hact]

/-- `make_passive` does not touch node state, notify counter or clock. -/
theorem make_passive_node (w : EngineWorld) :
    w.make_passive.node_started = w.node_started ∧
    w.make_passive.notify_count = w.notify_count ∧
    w.make_passive.now = w.now := by
  unfold EngineWorld.make_passive
  by_cases hact : w.input.active = true
  · rw [if_pos hact]
    cases ho : w.input.output <;> simp [ho, EngineWorld.modifyOut]
  · rw [if_neg hact]
    exact ⟨rfl, rfl, rfl⟩

/-- `make_passive` preserves the size of the output store. -/
theorem make_passive_len (w : EngineWorld) :
    w.make_passive.outputs.length = w.outputs.length := by
  unfold EngineWorld.make_passive
  by_cases hact : w.input.active = true
  · rw [if_pos hact]
    cases ho : w.input.output <;> simp [ho, EngineWorld.modifyOut]
  · rw [if_neg hact]

/-- `make_passive` only touches subscriber sets: `valid` is preserved. -/
theorem make_passive_valid (w : EngineWorld) (j : Nat) :
    (w.make_passive.getOut j).valid = (w.getOut j).valid := by
  unfold EngineWorld.make_passive
  by_cases hact : w.input.active = true
  · rw [if_pos hact]
    cases ho : w.input.output with
    | none => simp [ho, EngineWorld.getOut]
    | some i =>
      simp only [ho]
      simp only [EngineWorld.getOut, EngineWorld.modifyOut]
      rw [List.getD_eq_getElem?_getD, List.getD_eq_getElem?_getD, List.getElem?_set]
      by_cases hij : i = j
      · subst hij
        by_cases hi : i < w.outputs.length
        · simp [hi, PythonTimeSeriesOutput.un_subscribe_node, List.getD_eq_getElem?_getD]
        · have hn : w.outputs[i]? = none := List.getElem?_eq_none (Nat.le_of_not_lt hi)
          simp [hi, hn]
      · simp [hij]
  · rw [if_neg hact]

/-- `make_active` leaves the input active. -/
theorem make_active_active (w : EngineWorld) : w.make_active.input.active = true := by
  unfold EngineWorld.make_active
  by_cases hact : w.input.active = true
  · rw [if_pos hact]; exact hact
  · rw [if_neg hact]
    cases ho : w.input.output <;> simp [ho, EngineWorld.modifyOut]

/-- `make_active` does not rebind the input. -/
theorem make_active_output (w : EngineWorld) :
    w.make_active.input.output = w.input.output := by
  unfold EngineWorld.make_active
  by_cases hact : w.input.active = true
  · rw [if_pos hact]
  · rw [if_neg hact]
    cases ho : w.input.output <;> simp [ho, EngineWorld.modifyOut]

/-- `make_active` does not change the owning node. -/
theorem make_active_owning (w : EngineWorld) :
    w.make_active.input.owning_node = w.input.owning_node := by
  unfold EngineWorld.make_active
  by_cases hact : w.input.active = true
  · rw [if_pos hact]
  · rw [if_neg hact]
    cases ho : w.input.output <;> simp [ho, EngineWorld.modifyOut]

/-- `make_active` does not touch the direct-sample time. -/
theorem make_active_sample (w : EngineWorld) :
    w.make_active.input.sample_time = w.input.sample_time := by
  unfold EngineWorld.make_active
  by_cases hact : w.input.active = true
  · rw [if_pos hact]
  · rw [if_neg hact]
    cases ho : w.input.output <;> simp [ho, EngineWorld.modifyOut]

/-- `make_active` does not touch node state, notify counter or clock. -/
theorem make_active_node (w : EngineWorld) :
    w.make_active.node_started = w.node_started ∧
    w.make_active.notify_count = w.notify_count ∧
    w.make_active.now = w.now := by
  unfold EngineWorld.make_active
  by_cases hact : w.input.active = true
  · rw [if_pos hact]
    exact ⟨rfl, rfl, rfl⟩
  · rw [if_neg hact]
    cases ho : w.input.output <;> simp [ho, EngineWorld.modifyOut]

/-- `make_active` preserves the size of the output store. -/
theorem make_active_len (w : EngineWorld) :
    w.make_active.outputs.length = w.outputs.length := by
  unfold EngineWorld.make_active
  by_cases hact : w.input.active = true
  · rw [if_pos hact]
  · rw [if_neg hact]
    cases ho : w.input.output <;> simp [ho, EngineWorld.modifyOut]

/-- `make_active` only touches subscriber sets: `valid` is preserved. -/
theorem make_active_valid (w : EngineWorld) (j : Nat) :
    (w.make_active.getOut j).valid = (w.getOut j).valid := by
  unfold EngineWorld.make_active
  by_cases hact : w.input.active = true
  · rw [if_pos hact]
  · rw [if_neg hact]
    cases ho : w.input.output with
    | none => simp [ho, EngineWorld.getOut]
    | some i =>
      simp only [ho]
      simp only [EngineWorld.getOut, EngineWorld.modifyOut]
      rw [List.getD_eq_getElem?_getD, List.getD_eq_getElem?_getD, List.getElem?_set]
      by_cases hij : i = j
      · subst hij
        by_cases hi : i < w.outputs.length
        · simp only [hi, if_pos rfl, if_true, Option.getD_some]
          unfold PythonTimeSeriesOutput.subscribe_node
          split <;> simp [List.getD_eq_getElem?_getD]
        · have hn : w.outputs[i]? = none := List.getElem?_eq_none (Nat.le_of_not_lt hi)
          simp [hi, hn]
      · simp [hij]

/-- `do_bind_output` installs the new output index. -/
theorem do_bind_output_out (w : EngineWorld) (i : Nat) :
    (w.do_bind_output i).input.output = some i := by
  unfold EngineWorld.do_bind_output
  by_cases hact : w.input.active = true
  · rw [if_pos hact, make_active_output]
  · rw [if_neg hact]

/-- `do_bind_output` restores the original active flag. -/
theorem do_bind_output_active (w : EngineWorld) (i : Nat) :
    (w.do_bind_output i).input.active = w.input.active := by
  unfold EngineWorld.do_bind_output
  by_cases hact : w.input.active = true
  · rw [if_pos hact, make_active_active, hact]
  · rw [if_neg hact]
    have : w.input.active = false := by revert hact; cases w.input.active <;> simp
    rw [this]
    exact make_passive_active w

/-- `do_bind_output` does not change the owning node. -/
theorem do_bind_output_owning (w : EngineWorld) (i : Nat) :
    (w.do_bind_output i).input.owning_node = w.input.owning_node := by
  unfold EngineWorld.do_bind_output
  by_cases hact : w.input.active = true
  · rw [if_pos hact, make_active_owning]
    exact make_passive_owning w
  · rw [if_neg hact]
    exact make_passive_owning w

/-- `do_bind_output` does not touch the direct-sample time. -/
theorem do_bind_output_sample (w : EngineWorld) (i : Nat) :
    (w.do_bind_output i).input.sample_time = w.input.sample_time := by
  unfold EngineWorld.do_bind_output
  by_cases hact : w.input.active = true
  · rw [if_pos hact, make_active_sample]
    exact make_passive_sample w
  · rw [if_neg hact]
    exact make_passive_sample w

/-- `do_bind_output` does not touch node state, notify counter or clock. -/
theorem do_bind_output_node (w : EngineWorld) (i : Nat) :
    (w.do_bind_output i).node_started = w.node_started ∧
    (w.do_bind_output i).notify_count = w.notify_count ∧
    (w.do_bind_output i).now = w.now := by
  unfold EngineWorld.do_bind_output
  by_cases hact : w.input.active = true
  · rw [if_pos hact]
    have ha := make_active_node
      { w.make_passive with input := { w.make_passive.input with output := some i } }
    have hp := make_passive_node w
    exact ⟨ha.1.trans hp.1, ha.2.1.trans hp.2.1, ha.2.2.trans hp.2.2⟩
  · rw [if_neg hact]
    exact make_passive_node w

/-- `do_bind_output` preserves the size of the output store. -/
theorem do_bind_output_len (w : EngineWorld) (i : Nat) :
    (w.do_bind_output i).outputs.length = w.outputs.length := by
  unfold EngineWorld.do_bind_output
  by_cases hact : w.input.active = true
  · rw [if_pos hact]
    rw [make_active_len]
    exact make_passive_len w
  · rw [if_neg hact]
    exact make_passive_len w

/-- `do_bind_output` only touches subscriber sets: `valid` is preserved. -/
theorem do_bind_output_valid (w : EngineWorld) (i j : Nat) :
    ((w.do_bind_output i).getOut j).valid = (w.getOut j).valid := by
  unfold EngineWorld.do_bind_output
  by_cases hact : w.input.active = true
  · rw [if_pos hact]
    rw [make_active_valid]
    exact make_passive_valid w j
  · rw [if_neg hact]
    exact make_passive_valid w j

end EngineWorld

/-- C5: binding an already-valid output while the owning node is started
and the input is active sets the input's `sample_time` to the current
engine time and notifies the owning node exactly once; when the node is
not started, the input not active, or the output not valid, no
notification is scheduled. -/
theorem bind_output_notification (w : EngineWorld) (i : Nat) :
    ((w.node_started = true ∧ w.input.active = true ∧ (w.getOut i).valid = true) →
      ((w.bind_output i).input.sample_time = w.now ∧
       (w.bind_output i).notify_count = w.notify_count + 1))
    ∧ ((w.node_started = false ∨ w.input.active = false ∨ (w.getOut i).valid = false) →
      (w.bind_output i).notify_count = w.notify_count) := by
  have hout := EngineWorld.do_bind_output_out w i
  have hact := EngineWorld.do_bind_output_active w i
  have hnode := EngineWorld.do_bind_output_node w i
  have hval := EngineWorld.do_bind_output_valid w i i
  constructor
  · rintro ⟨hs, ha, hv⟩
    unfold EngineWorld.bind_output
    simp only [hout]
    have hcond : ((w.do_bind_output i).node_started &&
        ((w.do_bind_output i).getOut i).valid) = true := by
      rw [hnode.1, hval, hs, hv]; rfl
    rw [if_pos hcond]
    have hact2 : ({ w.do_bind_output i with
        input := { (w.do_bind_output i).input with
          sample_time := (w.do_bind_output i).now } } : EngineWorld).input.active = true := by
      show (w.do_bind_output i).input.active = true
      rw [hact, ha]
    rw [if_pos hact2]
    constructor
    · show (w.do_bind_output i).now = w.now
      exact hnode.2.2
    · show (w.do_bind_output i).notify_count + 1 = w.notify_count + 1
      rw [hnode.2.1]
  · intro hdis
    unfold EngineWorld.bind_output
    simp only [hout]
    rcases hdis with hs | ha | hv
    · have hcond : ((w.do_bind_output i).node_started &&
          ((w.do_bind_output i).getOut i).valid) = false := by
        rw [hnode.1, hs]; exact Bool.false_and _
      rw [if_neg (by simp [hcond])]
      exact hnode.2.1
    · by_cases hcond : ((w.do_bind_output i).node_started &&
          ((w.do_bind_output i).getOut i).valid) = true
      · rw [if_pos hcond]
        have hact2 : ({ w.do_bind_output i with
            input := { (w.do_bind_output i).input with
              sample_time := (w.do_bind_output i).now } } : EngineWorld).input.active ≠ true := by
          show ¬ (w.do_bind_output i).input.active = true
          rw [hact, ha]
          simp
        rw [if_neg hact2]
        exact hnode.2.1
      · rw [if_neg hcond]
        exact hnode.2.1
    · have hcond : ((w.do_bind_output i).node_started &&
          ((w.do_bind_output i).getOut i).valid) = false := by
        rw [hnode.1, hval, hv]; exact Bool.and_false _
      rw [if_neg (by simp [hcond])]
      exact hnode.2.1

/-- Witness instantiating `bind_output_notification`: a started node with
an active input binding a valid output at engine time 9 gets
`sample_time = 9` and one notification; the same world with a passive
input gets none. -/
theorem bind_output_notification_witness :
    ((⟨[⟨true, false, 1, []⟩], ⟨5, none, true, 0⟩, true, 0, 0, 0, 9⟩ :
        EngineWorld).bind_output 0).input.sample_time = 9
    ∧ ((⟨[⟨true, false, 1, []⟩], ⟨5, none, true, 0⟩, true, 0, 0, 0, 9⟩ :
        EngineWorld).bind_output 0).notify_count = 1
    ∧ ((⟨[⟨true, false, 1, []⟩], ⟨5, none, false, 0⟩, true, 0, 0, 0, 9⟩ :
        EngineWorld).bind_output 0).notify_count = 0 := by
  have h1 := (bind_output_notification
    ⟨[⟨true, false, 1, []⟩], ⟨5, none, true, 0⟩, true, 0, 0, 0, 9⟩ 0).1
    ⟨rfl, rfl, rfl⟩
  have h2 := (bind_output_notification
    ⟨[⟨true, false, 1, []⟩], ⟨5, none, false, 0⟩, true, 0, 0, 0, 9⟩ 0).2
    (Or.inr (Or.inl rfl))
  exact ⟨h1.1, h1.2, h2⟩

namespace EngineWorld

/-- `make_active` on an already-active input is a no-op. -/
theorem make_active_of_active (w : EngineWorld) (h : w.input.active = true) :
    w.make_active = w := by
  unfold EngineWorld.make_active
  rw [if_pos h]

/-- `make_passive` on an already-passive input is a no-op. -/
theorem make_passive_of_passive (w : EngineWorld) (h : w.input.active = false) :
    w.make_passive = w := by
  unfold EngineWorld.make_passive
  rw [if_neg (by simp [h])]

/-- Iterating `make_active` on an active input changes nothing. -/
theorem iterate_make_active_fixed (w : EngineWorld) (h : w.input.active = true) :
    ∀ j, (EngineWorld.make_active)^[j] w = w := by
  intro j
  induction j with
  | zero => rfl
  | succ j ih =>
    rw [Function.iterate_succ_apply, make_active_of_active w h]
    exact ih

/-- Iterating `make_passive` on a passive input changes nothing. -/
theorem iterate_make_passive_fixed (w : EngineWorld) (h : w.input.active = false) :
    ∀ j, (EngineWorld.make_passive)^[j] w = w := by
  intro j
  induction j with
  | zero => rfl
  | succ j ih =>
    rw [Function.iterate_succ_apply, make_passive_of_passive w h]
    exact ih

/-- A passive-to-active flip on a bound input makes exactly one
`subscribe_node` call and no `un_subscribe_node` call. -/
theorem make_active_counts (w : EngineWorld) (h : w.input.active = false)
    (i : Nat) (hb : w.input.output = some i) :
    w.make_active.sub_calls = w.sub_calls + 1 ∧
    w.make_active.unsub_calls = w.unsub_calls := by
  unfold EngineWorld.make_active
  rw [if_neg (by simp [h])]
  simp [hb, EngineWorld.modifyOut]

/-- An active-to-passive flip on a bound input makes exactly one
`un_subscribe_node` call and no `subscribe_node` call. -/
theorem make_passive_counts (w : EngineWorld) (h : w.input.active = true)
    (i : Nat) (hb : w.input.output = some i) :
    w.make_passive.unsub_calls = w.unsub_calls + 1 ∧
    w.make_passive.sub_calls = w.sub_calls := by
  unfold EngineWorld.make_passive
  rw [if_pos h]
  simp [hb, EngineWorld.modifyOut]

end EngineWorld

/-- C6: `make_active` and `make_passive` are idempotent and flip the
subscription exactly once.  For a bound input, any positive number of
`make_active` calls from the passive state makes exactly one
`subscribe_node` call (and no unsubscribe) and leaves the input active;
dually for `make_passive` from the active state. -/
theorem make_active_passive_idempotent (w : EngineWorld) (k : Nat) (hk : 1 ≤ k)
    (i : Nat) (hb : w.input.output = some i) :
    (w.input.active = false →
      ((EngineWorld.make_active)^[k] w).sub_calls = w.sub_calls + 1 ∧
      ((EngineWorld.make_active)^[k] w).unsub_calls = w.unsub_calls ∧
      ((EngineWorld.make_active)^[k] w).input.active = true)
    ∧ (w.input.active = true →
      ((EngineWorld.make_passive)^[k] w).unsub_calls = w.unsub_calls + 1 ∧
      ((EngineWorld.make_passive)^[k] w).sub_calls = w.sub_calls ∧
      ((EngineWorld.make_passive)^[k] w).input.active = false) := by
  rcases k with _ | j
  · omega
  constructor
  · intro h
    rw [Function.iterate_succ_apply]
    rw [EngineWorld.iterate_make_active_fixed w.make_active
      (EngineWorld.make_active_active w) j]
    have hc := EngineWorld.make_active_counts w h i hb
    exact ⟨hc.1, hc.2, EngineWorld.make_active_active w⟩
  · intro h
    rw [Function.iterate_succ_apply]
    rw [EngineWorld.iterate_make_passive_fixed w.make_passive
      (EngineWorld.make_passive_active w) j]
    have hc := EngineWorld.make_passive_counts w h i hb
    exact ⟨hc.1, hc.2, EngineWorld.make_passive_active w⟩

/-- Witness instantiating `make_active_passive_idempotent` with three
repeated calls on a bound input. -/
theorem make_active_passive_idempotent_witness :
    ((EngineWorld.make_active)^[3]
        (⟨[⟨true, false, 1, []⟩], ⟨5, some 0, false, 0⟩, true, 0, 0, 0, 9⟩ :
          EngineWorld)).sub_calls = 1
    ∧ ((EngineWorld.make_active)^[3]
        (⟨[⟨true, false, 1, []⟩], ⟨5, some 0, false, 0⟩, true, 0, 0, 0, 9⟩ :
          EngineWorld)).input.active = true
    ∧ ((EngineWorld.make_passive)^[3]
        (⟨[⟨true, false, 1, [5]⟩], ⟨5, some 0, true, 0⟩, true, 0, 0, 0, 9⟩ :
          EngineWorld)).unsub_calls = 1
    ∧ ((EngineWorld.make_passive)^[3]
        (⟨[⟨true, false, 1, [5]⟩], ⟨5, some 0, true, 0⟩, true, 0, 0, 0, 9⟩ :
          EngineWorld)).input.active = false := by
  have h1 := (make_active_passive_idempotent
    ⟨[⟨true, false, 1, []⟩], ⟨5, some 0, false, 0⟩, true, 0, 0, 0, 9⟩ 3 (by omega)
    0 rfl).1 rfl
  have h2 := (make_active_passive_idempotent
    ⟨[⟨true, false, 1, [5]⟩], ⟨5, some 0, true, 0⟩, true, 0, 0, 0, 9⟩ 3 (by omega)
    0 rfl).2 rfl
  exact ⟨h1.1, h1.2.2, h2.1, h2.2.2⟩

namespace EngineWorld

/-- Output store after a passive-to-active flip of a bound input. -/
theorem make_active_getOut (w : EngineWorld) (h : w.input.active = false) (i : Nat)
    (hb : w.input.output = some i) (j : Nat) :
    w.make_active.getOut j =
      if i = j ∧ i < w.outputs.length
      then (w.getOut i).subscribe_node w.input.owning_node
      else w.getOut j := by
  unfold EngineWorld.make_active
  rw [if_neg (by simp [h])]
  simp only [hb]
  simp only [EngineWorld.getOut, EngineWorld.modifyOut]
  rw [List.getD_eq_getElem?_getD, List.getElem?_set]
  by_cases hij : i = j
  · subst hij
    by_cases hi : i < w.outputs.length
    · simp [hi, List.getD_eq_getElem?_getD]
    · have hn : w.outputs[i]? = none := List.getElem?_eq_none (Nat.le_of_not_lt hi)
      simp [hi, hn, List.getD_eq_getElem?_getD]
  · simp [hij, List.getD_eq_getElem?_getD]

/-- Output store after an active-to-passive flip of a bound input. -/
theorem make_passive_getOut (w : EngineWorld) (h : w.input.active = true) (i : Nat)
    (hb : w.input.output = some i) (j : Nat) :
    w.make_passive.getOut j =
      if i = j ∧ i < w.outputs.length
      then (w.getOut i).un_subscribe_node w.input.owning_node
      else w.getOut j := by
  unfold EngineWorld.make_passive
  rw [if_pos h]
  simp only [hb]
  simp only [EngineWorld.getOut, EngineWorld.modifyOut]
  rw [List.getD_eq_getElem?_getD, List.getElem?_set]
  by_cases hij : i = j
  · subst hij
    by_cases hi : i < w.outputs.length
    · simp [hi, List.getD_eq_getElem?_getD]
    · have hn : w.outputs[i]? = none := List.getElem?_eq_none (Nat.le_of_not_lt hi)
      simp [hi, hn, List.getD_eq_getElem?_getD]
  · simp [hij, List.getD_eq_getElem?_getD]

/-- The subscriber invariant (spec invariant 1 restricted to the stored
outputs): the owning node is counted exactly once in the subscriber set
of the bound output when the input is active, and in no subscriber set
otherwise. -/
def SubsInv (w : EngineWorld) : Prop :=
  ∀ j, j < w.outputs.length →
    (w.getOut j).subscribers.count w.input.owning_node
      = if w.input.active = true ∧ w.input.output = some j then 1 else 0

/-- The input's binding, if any, points into the output store. -/
def boundInRange (w : EngineWorld) : Bool :=
  match w.input.output with
  | some i => decide (i < w.outputs.length)
  | none => true

/-- The operations of the claim, applied to the world's input. -/
inductive InputOp where
  | makeActive
  | makePassive
  | bindOutput (i : Nat)
deriving Repr, DecidableEq

/-- Run one input operation. -/
def applyOp (w : EngineWorld) : InputOp → EngineWorld
  | .makeActive => w.make_active
  | .makePassive => w.make_passive
  | .bindOutput i => w.do_bind_output i

/-- Run a sequence of input operations. -/
def runOps (w : EngineWorld) (ops : List InputOp) : EngineWorld :=
  ops.foldl applyOp w

/-- All `bindOutput` indices of the sequence point into a store of `n`
outputs. -/
def opsInRange (ops : List InputOp) (n : Nat) : Bool :=
  ops.all fun op =>
    match op with
    | .bindOutput i => decide (i < n)
    | _ => true

/-- `make_active` preserves the subscriber invariant. -/
theorem subsInv_make_active (w : EngineWorld) (hw : SubsInv w) :
    SubsInv w.make_active := by
  by_cases hact : w.input.active = true
  · rw [make_active_of_active w hact]; exact hw
  · have hact' : w.input.active = false := by
      revert hact; cases w.input.active <;> simp
    intro j hj
    rw [make_active_len] at hj
    have hcount := hw j hj
    rw [if_neg (by simp [hact'])] at hcount
    rw [make_active_owning, make_active_active, make_active_output]
    cases ho : w.input.output with
    | none =>
      have hgo : w.make_active.getOut j = w.getOut j := by
        unfold EngineWorld.make_active
        rw [if_neg (by simp [hact'])]
        simp [ho, EngineWorld.getOut]
      rw [hgo, hcount]
      simp
    | some i =>
      rw [make_active_getOut w hact' i ho j]
      by_cases hc : i = j ∧ i < w.outputs.length
      · rw [if_pos hc]
        unfold PythonTimeSeriesOutput.subscribe_node
        have hnotmem : w.input.owning_node ∉ (w.getOut i).subscribers := by
          have := hw i (hc.1 ▸ hj)
          rw [if_neg (by simp [hact'])] at this
          rw [hc.1]
          rw [hc.1] at this
          exact List.count_eq_zero.mp this
        rw [if_neg hnotmem]
        simp only []
        rw [List.count_append]
        have : (w.getOut i).subscribers.count w.input.owning_node = 0 := by
          have := hw i (hc.1 ▸ hj)
          rwa [if_neg (by simp [hact'])] at this
        rw [this]
        simp [hc.1]
      · rw [if_neg hc]
        have hij : ¬ i = j := fun he => hc ⟨he, he ▸ hj⟩
        rw [hcount]
        simp [ho, hij, fun he : some i = some j => hij (Option.some_injective _ he)]

/-- `make_passive` preserves the subscriber invariant. -/
theorem subsInv_make_passive (w : EngineWorld) (hw : SubsInv w) :
    SubsInv w.make_passive := by
  by_cases hact : w.input.active = true
  · intro j hj
    rw [make_passive_len] at hj
    rw [make_passive_owning, make_passive_active, make_passive_output]
    rw [if_neg (by simp)]
    cases ho : w.input.output with
    | none =>
      have hgo : w.make_passive.getOut j = w.getOut j := by
        unfold EngineWorld.make_passive
        rw [if_pos hact]
        simp [ho, EngineWorld.getOut]
      rw [hgo]
      have hcount := hw j hj
      rw [ho] at hcount
      rwa [if_neg (by simp)] at hcount
    | some i =>
      rw [make_passive_getOut w hact i ho j]
      by_cases hc : i = j ∧ i < w.outputs.length
      · rw [if_pos hc]
        unfold PythonTimeSeriesOutput.un_subscribe_node
        simp only []
        rw [List.count_erase_self]
        have hone : (w.getOut i).subscribers.count w.input.owning_node = 1 := by
          have := hw i (hc.1 ▸ hj)
          rwa [if_pos ⟨hact, ho⟩] at this
        omega
      · rw [if_neg hc]
        have hij : ¬ i = j := fun he => hc ⟨he, he ▸ hj⟩
        have hcount := hw j hj
        rw [ho] at hcount
        rwa [if_neg (by
          rintro ⟨-, he⟩
          exact hij (Option.some_injective _ he))] at hcount
  · have hact' : w.input.active = false := by
      revert hact; cases w.input.active <;> simp
    rw [make_passive_of_passive w hact']
    exact hw

/-- `do_bind_output` preserves the subscriber invariant. -/
theorem subsInv_do_bind_output (w : EngineWorld) (i : Nat) (hw : SubsInv w) :
    SubsInv (w.do_bind_output i) := by
  have hmid : SubsInv ({ w.make_passive with
      input := { w.make_passive.input with output := some i } } : EngineWorld) := by
    intro j hj
    show (w.make_passive.getOut j).subscribers.count w.make_passive.input.owning_node
      = if w.make_passive.input.active = true ∧ some i = some j then 1 else 0
    rw [make_passive_active]
    rw [if_neg (by simp)]
    have := subsInv_make_passive w hw j hj
    rwa [if_neg (by simp [make_passive_active])] at this
  unfold EngineWorld.do_bind_output
  by_cases hact : w.input.active = true
  · rw [if_pos hact]
    exact subsInv_make_active _ hmid
  · rw [if_neg hact]
    exact hmid

/-- One input operation preserves the subscriber invariant. -/
theorem subsInv_applyOp (w : EngineWorld) (op : InputOp) (hw : SubsInv w) :
    SubsInv (w.applyOp op) := by
  cases op with
  | makeActive => exact subsInv_make_active w hw
  | makePassive => exact subsInv_make_passive w hw
  | bindOutput i => exact subsInv_do_bind_output w i hw

/-- A run of input operations preserves the subscriber invariant. -/
theorem subsInv_runOps (w : EngineWorld) (ops : List InputOp) (hw : SubsInv w) :
    SubsInv (w.runOps ops) := by
  induction ops generalizing w with
  | nil => exact hw
  | cons op ops ih => exact ih (w.applyOp op) (subsInv_applyOp w op hw)

/-- One input operation preserves the size of the output store. -/
theorem applyOp_len (w : EngineWorld) (op : InputOp) :
    (w.applyOp op).outputs.length = w.outputs.length := by
  cases op with
  | makeActive => exact make_active_len w
  | makePassive => exact make_passive_len w
  | bindOutput i => exact do_bind_output_len w i

/-- A run of input operations preserves the size of the output store. -/
theorem runOps_len (w : EngineWorld) (ops : List InputOp) :
    (w.runOps ops).outputs.length = w.outputs.length := by
  induction ops generalizing w with
  | nil => rfl
  | cons op ops ih => exact (ih (w.applyOp op)).trans (applyOp_len w op)

/-- Unfolding `opsInRange` over the head of the sequence. -/
theorem opsInRange_cons (op : InputOp) (ops : List InputOp) (n : Nat) :
    opsInRange (op :: ops) n
      = ((match op with
          | InputOp.bindOutput i => decide (i < n)
          | _ => true) && opsInRange ops n) := by
  cases op <;> rfl

/-- A run of in-range operations keeps the binding in range. -/
theorem boundInRange_runOps (w : EngineWorld) (ops : List InputOp)
    (hr : boundInRange w = true) (hops : opsInRange ops w.outputs.length = true) :
    boundInRange (w.runOps ops) = true := by
  induction ops generalizing w with
  | nil => exact hr
  | cons op ops ih =>
    rw [opsInRange_cons] at hops
    have hsplit := (Bool.and_eq_true _ _).mp hops
    have hops' : opsInRange ops (w.applyOp op).outputs.length = true := by
      rw [applyOp_len]
      exact hsplit.2
    have hr' : boundInRange (w.applyOp op) = true := by
      have hop1 := hsplit.1
      cases op with
      | makeActive =>
        show boundInRange w.make_active = true
        unfold boundInRange
        rw [make_active_output, make_active_len]
        unfold boundInRange at hr
        exact hr
      | makePassive =>
        show boundInRange w.make_passive = true
        unfold boundInRange
        rw [make_passive_output, make_passive_len]
        unfold boundInRange at hr
        exact hr
      | bindOutput i =>
        show boundInRange (w.do_bind_output i) = true
        unfold boundInRange
        rw [do_bind_output_out, do_bind_output_len]
        simpa using hop1
    exact ih (w.applyOp op) hr' hops'

end EngineWorld

/-- `SubsInv` is a bounded quantification, hence decidable. -/
instance (w : EngineWorld) : Decidable w.SubsInv :=
  inferInstanceAs (Decidable (∀ j, j < w.outputs.length →
    (w.getOut j).subscribers.count w.input.owning_node
      = if w.input.active = true ∧ w.input.output = some j then 1 else 0))

/-- C3: after any sequence of `make_active`, `make_passive` and
`do_bind_output` operations on the input (starting from a state
satisfying the subscriber invariant, with all bindings in range), the
owning node is a member of an output's subscriber set iff the input is
active and bound to that output.  Rebinding an active input moves the
node from the old output's subscribers to the new output's, and
`make_passive` removes it. -/
theorem active_input_subscriber_iff (w : EngineWorld) (ops : List EngineWorld.InputOp)
    (hw : EngineWorld.SubsInv w) (hr : EngineWorld.boundInRange w = true)
    (hops : EngineWorld.opsInRange ops w.outputs.length = true) (j : Nat) :
    ((w.runOps ops).input.owning_node ∈ ((w.runOps ops).getOut j).subscribers)
      ↔ ((w.runOps ops).input.active = true ∧ (w.runOps ops).input.output = some j) := by
  have hinv := EngineWorld.subsInv_runOps w ops hw
  by_cases hj : j < (w.runOps ops).outputs.length
  · have hc := hinv j hj
    constructor
    · intro hm
      by_contra hnc
      rw [if_neg hnc] at hc
      exact absurd (List.count_pos_iff.mpr hm) (by omega)
    · intro hcnd
      rw [if_pos hcnd] at hc
      exact List.count_pos_iff.mp (by omega)
  · have hj' : (w.runOps ops).outputs.length ≤ j := Nat.le_of_not_lt hj
    have hempty : ((w.runOps ops).getOut j).subscribers = [] := by
      unfold EngineWorld.getOut
      rw [List.getD_eq_getElem?_getD, List.getElem?_eq_none hj']
      rfl
    constructor
    · intro hm
      rw [hempty] at hm
      cases hm
    · rintro ⟨hact, hout⟩
      exfalso
      have hbr := EngineWorld.boundInRange_runOps w ops hr hops
      unfold EngineWorld.boundInRange at hbr
      rw [hout] at hbr
      have : j < (w.runOps ops).outputs.length := by simpa using hbr
      omega

/-- Witness instantiating `active_input_subscriber_iff`: node 7 binds
output 0, becomes active, then rebinds to output 1 — it ends up in
output 1's subscriber set and not in output 0's. -/
theorem active_input_subscriber_iff_witness :
    let w0 : EngineWorld :=
      ⟨[⟨false, false, 0, []⟩, ⟨false, false, 0, []⟩], ⟨7, none, false, 0⟩,
        false, 0, 0, 0, 0⟩
    let ops : List EngineWorld.InputOp :=
      [EngineWorld.InputOp.bindOutput 0, EngineWorld.InputOp.makeActive,
       EngineWorld.InputOp.bindOutput 1]
    (7 ∈ ((w0.runOps ops).getOut 1).subscribers)
    ∧ ¬ (7 ∈ ((w0.runOps ops).getOut 0).subscribers) := by
  intro w0 ops
  have h1 := active_input_subscriber_iff w0 ops (by decide) (by decide) (by decide) 1
  have h0 := active_input_subscriber_iff w0 ops (by decide) (by decide) (by decide) 0
  constructor
  · exact h1.mpr (by decide)
  · intro hm
    exact absurd (h0.mp hm) (by decide)

/-! ## Overload resolution: `OverloadedWiringNodeHelper.get_best_overload`

An overload is abstracted to its identity, its wiring rank
(`_calc_rank`, a numeric score; rationals model the Python floats), and
whether `resolve_signature` succeeds on the supplied arguments. -/

structure Overload where
  id : Nat
  rank : ℚ
  resolves : Bool
deriving DecidableEq

instance : DecidableRel (fun a b : Overload => a.rank ≤ b.rank) :=
  fun a b => inferInstanceAs (Decidable (a.rank ≤ b.rank))

instance : IsTotal Overload (fun a b => a.rank ≤ b.rank) :=
  ⟨fun a b => le_total a.rank b.rank⟩

instance : IsTrans Overload (fun a b => a.rank ≤ b.rank) :=
  ⟨fun _ _ _ h1 h2 => le_trans h1 h2⟩

/-- `get_best_overload`: keep the overloads whose signature resolves
against the supplied arguments; raise a `WiringError` when none does;
stable-sort the candidates by rank; raise a `WiringError` when the two
best share a rank; otherwise return the best candidate. -/
def get_best_overload (ovs : List Overload) : Except String Overload :=
  let candidates := ovs.filter (fun c => c.resolves)
  if candidates.isEmpty then
    Except.error "no matching candidates found"
  else
    match List.insertionSort (fun a b => a.rank ≤ b.rank) candidates with
    | [] => Except.error "no matching candidates found"
    | [c] => Except.ok c
    | c1 :: c2 :: _ =>
      if c1.rank = c2.rank then Except.error "overloads are ambiguous"
      else Except.ok c1

/-- C8: `get_best_overload` raises a `WiringError` exactly when no
overload resolves or at least two resolving candidates share the best
(lowest) rank; otherwise it returns the unique best-ranked resolving
candidate (the only candidate whose rank is ≤ its own). -/
theorem get_best_overload_spec (ovs : List Overload) :
    (match get_best_overload ovs with
     | Except.error _ =>
        ovs.filter (fun c => c.resolves) = []
          ∨ 2 ≤ (ovs.filter (fun c => c.resolves)).countP
              (fun c => (ovs.filter (fun c => c.resolves)).all
                (fun d => decide (c.rank ≤ d.rank)))
     | Except.ok c =>
        c ∈ ovs.filter (fun c => c.resolves)
          ∧ (ovs.filter (fun c => c.resolves)).countP
              (fun d => decide (d.rank ≤ c.rank)) = 1) := by
  by_cases hemp : (ovs.filter (fun c => c.resolves)).isEmpty = true
  · unfold get_best_overload
    rw [if_pos hemp]
    exact Or.inl (List.isEmpty_iff.mp hemp)
  · have hsort := List.sorted_insertionSort (fun a b : Overload => a.rank ≤ b.rank)
      (ovs.filter (fun c => c.resolves))
    have hperm := List.perm_insertionSort (fun a b : Overload => a.rank ≤ b.rank)
      (ovs.filter (fun c => c.resolves))
    unfold get_best_overload
    rw [if_neg hemp]
    cases hs : List.insertionSort (fun a b : Overload => a.rank ≤ b.rank)
        (ovs.filter (fun c => c.resolves)) with
    | nil =>
      exfalso
      rw [hs] at hperm
      exact hemp (List.isEmpty_iff.mpr (List.Perm.nil_eq hperm ▸ rfl))
    | cons c1 rest =>
      rw [hs] at hperm hsort
      cases rest with
      | nil =>
        refine ⟨hperm.mem_iff.mp (by simp), ?_⟩
        rw [← hperm.countP_eq]
        simp
      | cons c2 rest2 =>
        have hsort1 : ∀ b ∈ c2 :: rest2, c1.rank ≤ b.rank :=
          (List.sorted_cons.mp hsort).1
        have hsort2 : ∀ b ∈ rest2, c2.rank ≤ b.rank :=
          (List.sorted_cons.mp (List.sorted_cons.mp hsort).2).1
        have hred : (match c1 :: c2 :: rest2 with
            | [] => (Except.error "no matching candidates found" : Except String Overload)
            | [c] => Except.ok c
            | c1 :: c2 :: _ =>
              if c1.rank = c2.rank then Except.error "overloads are ambiguous"
              else Except.ok c1)
            = (if c1.rank = c2.rank
               then (Except.error "overloads are ambiguous" : Except String Overload)
               else Except.ok c1) := rfl
        rw [hred]
        by_cases heq : c1.rank = c2.rank
        · rw [if_pos heq]
          refine Or.inr ?_
          rw [← hperm.countP_eq]
          have hmin1 : ∀ d ∈ ovs.filter (fun c => c.resolves), c1.rank ≤ d.rank := by
            intro d hd
            rcases List.mem_cons.mp (hperm.mem_iff.mpr hd) with h | h
            · rw [h]
            · exact hsort1 d h
          have hp1 : (ovs.filter (fun c => c.resolves)).all
              (fun d => decide (c1.rank ≤ d.rank)) = true := by
            rw [List.all_eq_true]
            intro d hd
            exact decide_eq_true (hmin1 d hd)
          have hp2 : (ovs.filter (fun c => c.resolves)).all
              (fun d => decide (c2.rank ≤ d.rank)) = true := by
            rw [List.all_eq_true]
            intro d hd
            exact decide_eq_true (heq ▸ hmin1 d hd)
          rw [List.countP_cons, List.countP_cons]
          simp [hp1, hp2]
        · rw [if_neg heq]
          have hlt : c1.rank < c2.rank :=
            lt_of_le_of_ne (hsort1 c2 (by simp)) heq
          refine ⟨hperm.mem_iff.mp (by simp), ?_⟩
          rw [← hperm.countP_eq]
          rw [List.countP_cons, List.countP_cons]
          have h2 : ¬ (c2.rank ≤ c1.rank) := not_le.mpr hlt
          have hz : rest2.countP (fun d => decide (d.rank ≤ c1.rank)) = 0 := by
            rw [List.countP_eq_zero]
            intro d hd
            simp only [decide_eq_true_eq]
            intro hdc
            exact absurd (le_trans (hsort2 d hd) hdc) (not_le.mpr hlt)
          simp [hz, h2]
